import Mathlib

/-!
Verification development for the rust-pdl repository: a shallow embedding of
the PDL parser (src/parse.rs), the canonical-text renderer (src/display.rs),
the JSON field-emission rules (src/ser.rs together with the serde attributes
described by the specification), and the remainder handling of the example
driver (examples/parser.rs).

Strings are modelled as `List Char`.  A parser is a function from the input
to `Option (remaining input × value)`; `none` is a nom failure (the nom
combinators used by the source never backtrack partially: a failing rule
consumes nothing, which the `Option` model reflects since the original input
is still at hand at every failure site).
-/

namespace Pdl

/-- Character class of the Rust literal set `" \t"` used by the `indent`
primitive (`is_a(" \t")` in src/parse.rs). -/
def isSpaceTab (c : Char) : Bool := c = ' ' || c = '\t'

/-- Whitespace in the sense of Rust `char::is_whitespace` (the Unicode
White_Space property), used by `take_while(|c| !c.is_whitespace())` and by
`str::trim` in the source. -/
def isRustWhitespace (c : Char) : Bool :=
  c = '\x09' || c = '\x0A' || c = '\x0B' || c = '\x0C' || c = '\x0D' || c = '\x20' ||
  c = '\u0085' || c = '\u00A0' || c = '\u1680' ||
  ('\u2000' ≤ c && c ≤ '\u200A') ||
  c = '\u2028' || c = '\u2029' || c = '\u202F' || c = '\u205F' || c = '\u3000'

/-- ASCII digit test, Rust `char::is_ascii_digit`. -/
def isAsciiDigit (c : Char) : Bool := '0' ≤ c && c ≤ '9'

/-- Rust `str::trim`: drop leading and trailing whitespace. -/
def rustTrim (s : List Char) : List Char :=
  ((s.dropWhile isRustWhitespace).reverse.dropWhile isRustWhitespace).reverse

/-- Numeric value of a run of ASCII digits (decimal). -/
def digitsVal (ds : List Char) : Nat :=
  ds.foldl (fun a c => 10 * a + (c.toNat - '0'.toNat)) 0

/-- Size bound of Rust `usize` on the 64-bit reference targets;
`usize::from_str` fails beyond it. -/
def usizeSize : Nat := 2 ^ 64

/-- Parser over `List Char`: `none` is failure, `some (rest, a)` success. -/
def P (α : Type) : Type := List Char → Option (List Char × α)

/-- Succeed without consuming input. -/
def ppure (a : α) : P α := fun input => some (input, a)

/-- Sequence two parsers (the nom `tuple` chaining). -/
def pbind (p : P α) (f : α → P β) : P β := fun input =>
  match p input with
  | none => none
  | some (rest, a) => f a rest

/-- Apply a function to a parser result (nom `map`). -/
def pmap (f : α → β) (p : P α) : P β :=
  pbind p fun a => ppure (f a)

/-- Nom `opt`: never fails, returns `none` without consuming on inner failure. -/
def popt (p : P α) : P (Option α) := fun input =>
  match p input with
  | none => some (input, none)
  | some (rest, a) => some (rest, some a)

/-- Nom `alt` of two branches, first match wins. -/
def palt (p q : P α) : P α := fun input =>
  match p input with
  | some r => some r
  | none => q input

/-- Nom `preceded`: run both, keep the second result. -/
def preceded (p : P α) (q : P β) : P β :=
  pbind p fun _ => q

/-- Nom `verify`: succeed only when the predicate holds of the value. -/
def pverify (p : P α) (cond : α → Bool) : P α :=
  pbind p fun a => fun input => if cond a then some (input, a) else none

/-- Nom `tag`: match a literal. -/
def ptag (t : List Char) : P (List Char) := fun input =>
  if t.isPrefixOf input then some (input.drop t.length, t) else none

/-- Nom `char`: match one exact character. -/
def pchar (c : Char) : P Char := fun input =>
  match input with
  | [] => none
  | x :: rest => if x = c then some (rest, c) else none

/-- Nom `take_while`: the maximal prefix satisfying `f`; never fails. -/
def takeWhileC (f : Char → Bool) : P (List Char) := fun input =>
  some (input.dropWhile f, input.takeWhile f)

/-- Nom `take_until("\n")`: everything before the first newline, which must
exist; the newline itself is not consumed. -/
def takeUntilNl : P (List Char) := fun input =>
  if input.contains '\n' then
    some (input.dropWhile (fun c => c ≠ '\n'), input.takeWhile (fun c => c ≠ '\n'))
  else none

/-- Nom `is_a`: a nonempty maximal run of characters satisfying `f`. -/
def isA (f : Char → Bool) : P (List Char) := fun input =>
  match input.takeWhile f with
  | [] => none
  | run => some (input.dropWhile f, run)

/-- Fuelled worker for the nom `many0`/`many1` loops.  As in nom, an inner
success that consumes nothing aborts the whole loop with an error (the
infinite-loop guard); with fuel `input.length + 1` the fuel can never be
exhausted because every kept iteration strictly shrinks the input. -/
def manyAux (p : P α) : Nat → P (List α)
  | 0 => fun _ => none
  | fuel + 1 => fun input =>
    match p input with
    | none => some (input, [])
    | some (rest, a) =>
      if rest.length < input.length then
        match manyAux p fuel rest with
        | none => none
        | some (rest2, xs) => some (rest2, a :: xs)
      else none

/-- Nom `many0`. -/
def many0 (p : P α) : P (List α) := fun input =>
  manyAux p (input.length + 1) input

/-- Nom `many1`: like `many0` but the result list must be nonempty. -/
def many1 (p : P α) : P (List α) := fun input =>
  match many0 p input with
  | none => none
  | some (_, []) => none
  | some (rest, a :: xs) => some (rest, a :: xs)

/-- The `optional(name)` helper of src/parse.rs:
`map(opt(pair(tag(name), char(' '))), |v| v.is_some())`. -/
def optional (name : List Char) : P Bool :=
  pmap Option.isSome (popt (pbind (ptag name) fun _ => pchar ' '))

/-- Description: the ordered trimmed comment lines attached to a declaration
(the `Description` newtype of the crate). -/
abbrev Description := List (List Char)

/-- Version numbers of the protocol (struct `Version`). -/
structure Version where
  major : Nat
  minor : Nat
  deriving DecidableEq, Repr

/-- One enum member (struct `Variant`). -/
structure Variant where
  description : Description
  name : List Char
  deriving DecidableEq, Repr

/-- The recursive type language (enum `Type` of the crate; `Type` is a Lean
keyword, hence the Pdl prefix in the name). -/
inductive PdlType where
  | enum (variants : List Variant)
  | integer
  | number
  | boolean
  | string
  | object
  | any
  | binary
  | arrayOf (t : PdlType)
  | ref (id : List Char)
  deriving DecidableEq, Repr

/-- Parameter (struct `Param`). -/
structure Param where
  description : Description
  experimental : Bool
  deprecated : Bool
  optional : Bool
  ty : PdlType
  name : List Char
  deriving DecidableEq, Repr

/-- Payload of a type definition (enum `Item` of the crate). -/
inductive Item where
  | enum (variants : List Variant)
  | properties (params : List Param)
  deriving DecidableEq, Repr

/-- Type definition (struct `TypeDef`; the Rust field `extends` is a Lean
keyword, rendered here as `extendsTy`). -/
structure TypeDef where
  description : Description
  experimental : Bool
  deprecated : Bool
  id : List Char
  extendsTy : PdlType
  item : Option Item
  deriving DecidableEq, Repr

/-- Redirect of a command to another domain (struct `Redirect`; the Rust
field `to` is a Lean keyword, rendered here as `toDomain`). -/
structure Redirect where
  description : Description
  toDomain : List Char
  deriving DecidableEq, Repr

/-- Command (struct `Command`). -/
structure Command where
  description : Description
  experimental : Bool
  deprecated : Bool
  name : List Char
  redirect : Option Redirect
  parameters : List Param
  returns : List Param
  deriving DecidableEq, Repr

/-- Event (struct `Event`). -/
structure Event where
  description : Description
  experimental : Bool
  deprecated : Bool
  name : List Char
  parameters : List Param
  deriving DecidableEq, Repr

/-- Domain (struct `Domain`). -/
structure Domain where
  description : Description
  experimental : Bool
  deprecated : Bool
  name : List Char
  dependencies : List (List Char)
  types : List TypeDef
  commands : List Command
  events : List Event
  deriving DecidableEq, Repr

/-- Whole document (struct `Protocol`). -/
structure Protocol where
  description : Description
  version : Version
  domains : List Domain
  deriving DecidableEq, Repr

/-- The base case of `Type::new` in src/parse.rs (the `is_array == false`
match): the closed keyword table, defaulting to `Ref`. -/
def PdlType.base (t : List Char) : PdlType :=
  if t = ("enum").toList then .enum []
  else if t = ("integer").toList then .integer
  else if t = ("number").toList then .number
  else if t = ("boolean").toList then .boolean
  else if t = ("string").toList then .string
  else if t = ("object").toList then .object
  else if t = ("any").toList then .any
  else .ref t

/-- `Type::new` from src/parse.rs: the recursive call with `is_array = false`
is `PdlType.base`. -/
def PdlType.new (t : List Char) (isArray : Bool) : PdlType :=
  if isArray then .arrayOf (PdlType.base t) else PdlType.base t

/-- The `indent` rule: `recognize(many1(is_a(" \t")))`, i.e. one maximal
nonempty run of spaces and tabs. -/
def indent : P (List Char) := isA isSpaceTab

/-- The `eol` rule: a single newline. -/
def eol : P Char := pchar '\n'

/-- The `empty_lines` rule: `recognize(many0(eol))`. -/
def empty_lines : P (List Char) := many0 (pmap (fun c => c) eol)

/-- The `comment` rule: optional indent, `#`, trimmed text to end of line,
consuming the newline. -/
def comment : P (List Char) :=
  pbind (popt indent) fun _ =>
  pbind (pchar '#') fun _ =>
  pbind takeUntilNl fun s =>
  pbind eol fun _ =>
  ppure (rustTrim s)

/-- The `description` rule: zero or more comments. -/
def description : P Description := many0 comment

/-- The `map_res(take_while(is_ascii_digit), usize::from_str)` digit-run
parser of the version rule: a nonempty run of ASCII digits whose decimal
value fits in `usize`. -/
def puint : P Nat :=
  pbind (takeWhileC isAsciiDigit) fun ds => fun input =>
    if ds.isEmpty then none
    else if digitsVal ds < usizeSize then some (input, digitsVal ds) else none

/-- The `version` rule of src/parse.rs. -/
def version : P Version :=
  pbind (ptag (("version").toList)) fun _ =>
  pbind eol fun _ =>
  pbind indent fun _ =>
  pbind (ptag (("major").toList)) fun _ =>
  pbind (pchar ' ') fun _ =>
  pbind puint fun major =>
  pbind eol fun _ =>
  pbind indent fun _ =>
  pbind (ptag (("minor").toList)) fun _ =>
  pbind (pchar ' ') fun _ =>
  pbind puint fun minor =>
  pbind eol fun _ =>
  ppure { major := major, minor := minor }

/-- The `ty` rule: optional `array of ` followed by a bare token. -/
def ty : P PdlType :=
  pbind (optional (("array of").toList)) fun isArr =>
  pbind (takeWhileC (fun c => !isRustWhitespace c)) fun t =>
  ppure (PdlType.new t isArr)

/-- The `depends_on` rule. -/
def depends_on : P (List Char) :=
  pbind indent fun _ =>
  pbind (ptag (("depends on").toList)) fun _ =>
  pbind (pchar ' ') fun _ =>
  pbind (takeWhileC (fun c => !isRustWhitespace c)) fun name =>
  pbind eol fun _ =>
  ppure name

/-- The `variant` rule: description, indent, nonempty whitespace-free name,
end of line. -/
def variant : P Variant :=
  pbind description fun d =>
  pbind indent fun _ =>
  pbind (pverify (takeWhileC (fun c => !isRustWhitespace c)) (fun s => !s.isEmpty)) fun name =>
  pbind eol fun _ =>
  ppure { description := d, name := name }

/-- Head line of the `param` rule (everything before the enum-variant
attachment step). -/
def paramHead : P Param :=
  pbind description fun d =>
  pbind indent fun _ =>
  pbind (optional (("experimental").toList)) fun exp =>
  pbind (optional (("deprecated").toList)) fun dep =>
  pbind (optional (("optional").toList)) fun opt =>
  pbind ty fun t =>
  pbind (pchar ' ') fun _ =>
  pbind (pverify (takeWhileC (fun c => !isRustWhitespace c)) (fun s => !s.isEmpty)) fun name =>
  pbind eol fun _ =>
  ppure { description := d, experimental := exp, deprecated := dep,
          optional := opt, ty := t, name := name }

/-- The `param` rule of src/parse.rs: after the head line, when the resolved
type is `Enum`, one-or-more variant lines are parsed and appended into the
(freshly created, hence empty) variant list. -/
def param : P Param := fun input =>
  match paramHead input with
  | none => none
  | some (rest, p) =>
    match p.ty with
    | PdlType.enum vs =>
      match many1 variant rest with
      | none => none
      | some (rest2, vars) => some (rest2, { p with ty := PdlType.enum (vs ++ vars) })
    | _ => some (rest, p)

/-- The `item` rule: an `enum` block or a `properties` block. -/
def item : P Item :=
  palt
    (pmap Item.enum
      (preceded
        (pbind indent fun _ => pbind (ptag (("enum").toList)) fun _ => eol)
        (many1 variant)))
    (pmap Item.properties
      (preceded
        (pbind indent fun _ => pbind (ptag (("properties").toList)) fun _ => eol)
        (many1 param)))

/-- The `type_def` rule of src/parse.rs (note: no `optional` probe in its
head, unlike `param`). -/
def type_def : P TypeDef :=
  pbind description fun d =>
  pbind indent fun _ =>
  pbind (optional (("experimental").toList)) fun exp =>
  pbind (optional (("deprecated").toList)) fun dep =>
  pbind (ptag (("type").toList)) fun _ =>
  pbind (pchar ' ') fun _ =>
  pbind (takeWhileC (fun c => !isRustWhitespace c)) fun id =>
  pbind (pchar ' ') fun _ =>
  pbind (ptag (("extends").toList)) fun _ =>
  pbind (pchar ' ') fun _ =>
  pbind ty fun ext =>
  pbind eol fun _ =>
  pbind (popt item) fun it =>
  ppure { description := d, experimental := exp, deprecated := dep,
          id := id, extendsTy := ext, item := it }

/-- The `redirect` rule. -/
def redirect : P Redirect :=
  pbind description fun d =>
  pbind indent fun _ =>
  pbind (ptag (("redirect").toList)) fun _ =>
  pbind (pchar ' ') fun _ =>
  pbind (takeWhileC (fun c => !isRustWhitespace c)) fun t =>
  pbind eol fun _ =>
  ppure { description := d, toDomain := t }

/-- The `command` rule. -/
def command : P Command :=
  pbind description fun d =>
  pbind indent fun _ =>
  pbind (optional (("experimental").toList)) fun exp =>
  pbind (optional (("deprecated").toList)) fun dep =>
  pbind (ptag (("command").toList)) fun _ =>
  pbind (pchar ' ') fun _ =>
  pbind takeUntilNl fun name =>
  pbind eol fun _ =>
  pbind (popt redirect) fun rd =>
  pbind (popt (preceded
      (pbind indent fun _ => pbind (ptag (("parameters").toList)) fun _ => eol)
      (many1 param))) fun params =>
  pbind empty_lines fun _ =>
  pbind (popt (preceded
      (pbind indent fun _ => pbind (ptag (("returns").toList)) fun _ => eol)
      (many1 param))) fun rets =>
  ppure { description := d, experimental := exp, deprecated := dep, name := name,
          redirect := rd, parameters := params.getD [], returns := rets.getD [] }

/-- The `event` rule. -/
def event : P Event :=
  pbind description fun d =>
  pbind indent fun _ =>
  pbind (optional (("experimental").toList)) fun exp =>
  pbind (optional (("deprecated").toList)) fun dep =>
  pbind (ptag (("event").toList)) fun _ =>
  pbind (pchar ' ') fun _ =>
  pbind takeUntilNl fun name =>
  pbind eol fun _ =>
  pbind (popt (preceded
      (pbind indent fun _ => pbind (ptag (("parameters").toList)) fun _ => eol)
      (many1 param))) fun params =>
  ppure { description := d, experimental := exp, deprecated := dep, name := name,
          parameters := params.getD [] }

/-- The local `enum Item` of the `domain` function in src/parse.rs. -/
inductive DomainItem where
  | typeDef (t : TypeDef)
  | command (c : Command)
  | event (e : Event)
  deriving DecidableEq, Repr

/-- The fold inside `domain` that pushes each parsed item onto its list,
preserving source order within each list. -/
def partitionItems : List DomainItem → List TypeDef × List Command × List Event
  | [] => ([], [], [])
  | DomainItem.typeDef t :: rest =>
    let (ts, cs, es) := partitionItems rest
    (t :: ts, cs, es)
  | DomainItem.command c :: rest =>
    let (ts, cs, es) := partitionItems rest
    (ts, c :: cs, es)
  | DomainItem.event e :: rest =>
    let (ts, cs, es) := partitionItems rest
    (ts, cs, e :: es)

/-- The `domain` rule of src/parse.rs: head line, `depends on` lines, then a
single `many0` over the alternation of the three child declarations (with
blank lines skipped before each), partitioned afterwards. -/
def domain : P Domain :=
  pbind description fun d =>
  pbind (optional (("experimental").toList)) fun exp =>
  pbind (optional (("deprecated").toList)) fun dep =>
  pbind (ptag (("domain").toList)) fun _ =>
  pbind (pchar ' ') fun _ =>
  pbind takeUntilNl fun name =>
  pbind eol fun _ =>
  pbind (many0 depends_on) fun deps =>
  pbind (many0 (preceded empty_lines
      (palt (pmap DomainItem.typeDef type_def)
        (palt (pmap DomainItem.command command)
          (pmap DomainItem.event event))))) fun items =>
  ppure
    (let (ts, cs, es) := partitionItems items
     { description := d, experimental := exp, deprecated := dep, name := name,
       dependencies := deps, types := ts, commands := cs, events := es })

/-- The `protocol` rule. -/
def protocol : P Protocol :=
  pbind description fun d =>
  pbind empty_lines fun _ =>
  pbind version fun v =>
  pbind (many1 (preceded empty_lines domain)) fun ds =>
  ppure { description := d, version := v, domains := ds }

/-- The public `parse` entry point of src/parse.rs. -/
def parse : P Protocol := protocol

/-- Decimal rendering of a `usize`, as the Rust `Display` for integers. -/
def natChars (n : Nat) : List Char := (Nat.repr n).toList

/-- Worker of the two-space indenter: after each interior newline insert two
spaces (nothing after a trailing newline). -/
def indentTail : List Char → List Char
  | [] => []
  | c :: rest =>
    if c = '\n' then
      match rest with
      | [] => ['\n']
      | _ => '\n' :: ' ' :: ' ' :: indentTail rest
    else c :: indentTail rest

/-- The `indented` wrapper of src/display.rs (`indented_with(data, Space2)`):
every line of the inner output is prefixed with two spaces. -/
def indent2 (s : List Char) : List Char :=
  match s with
  | [] => []
  | _ => ' ' :: ' ' :: indentTail s

/-- Display for `Description`: each line as `# <text>` plus newline. -/
def renderDescription (d : Description) : List Char :=
  (d.map fun line => ("# ").toList ++ line ++ ['\n']).flatten

/-- Emit a modifier keyword when its flag is set (the conditional string
arguments of the `writeln!` calls in src/display.rs). -/
def flagChars (b : Bool) (s : List Char) : List Char := if b then s else []

/-- Display for `Type` (src/display.rs lines 104-118). -/
def renderPdlType : PdlType → List Char
  | .enum _ => ("enum").toList
  | .integer => ("integer").toList
  | .number => ("number").toList
  | .boolean => ("boolean").toList
  | .string => ("string").toList
  | .object => ("object").toList
  | .any => ("any").toList
  | .binary => ("binary").toList
  | .arrayOf t => ("array of ").toList ++ renderPdlType t
  | .ref id => id

/-- Display for `Variant`: optional description lines, then the bare name
with no trailing newline (the caller adds it). -/
def renderVariant (v : Variant) : List Char :=
  (if v.description.isEmpty then [] else renderDescription v.description) ++ v.name

/-- Display for the private `Enum` wrapper of src/display.rs: optional header
line, then each variant indented on its own line. -/
def renderEnum (header : Option (List Char)) (vs : List Variant) : List Char :=
  (match header with
   | some h => h ++ ['\n']
   | none => []) ++
  (vs.map fun v => indent2 (renderVariant v) ++ ['\n']).flatten

/-- Display for `Param`: description, modifier keywords, type, name, then,
when the type is an enum, its variants. -/
def renderParam (p : Param) : List Char :=
  (if p.description.isEmpty then [] else renderDescription p.description) ++
  flagChars p.experimental (("experimental ").toList) ++
  flagChars p.deprecated (("deprecated ").toList) ++
  flagChars p.optional (("optional ").toList) ++
  renderPdlType p.ty ++ [' '] ++ p.name ++ ['\n'] ++
  (match p.ty with
   | .enum vs => renderEnum none vs
   | _ => [])

/-- Display for the private `Params` wrapper: header line, then each param
indented. -/
def renderParams (header : List Char) (ps : List Param) : List Char :=
  header ++ ['\n'] ++ (ps.map fun p => indent2 (renderParam p)).flatten

/-- Display for `Item`. -/
def renderItem : Item → List Char
  | .enum vs => renderEnum (some (("enum").toList)) vs
  | .properties ps => renderParams (("properties").toList) ps

/-- Display for `TypeDef`. -/
def renderTypeDef (t : TypeDef) : List Char :=
  (if t.description.isEmpty then [] else renderDescription t.description) ++
  flagChars t.experimental (("experimental ").toList) ++
  flagChars t.deprecated (("deprecated ").toList) ++
  ("type ").toList ++ t.id ++ (" extends ").toList ++ renderPdlType t.extendsTy ++ ['\n'] ++
  (match t.item with
   | some it => indent2 (renderItem it)
   | none => [])

/-- Display for `Redirect`. -/
def renderRedirect (r : Redirect) : List Char :=
  (if r.description.isEmpty then [] else renderDescription r.description) ++
  ("redirect ").toList ++ r.toDomain ++ ['\n']

/-- Display for `Command`: head line, optional redirect, then nonempty
parameter and return blocks. -/
def renderCommand (c : Command) : List Char :=
  (if c.description.isEmpty then [] else renderDescription c.description) ++
  flagChars c.experimental (("experimental ").toList) ++
  flagChars c.deprecated (("deprecated ").toList) ++
  ("command ").toList ++ c.name ++ ['\n'] ++
  (match c.redirect with
   | some r => indent2 (renderRedirect r)
   | none => []) ++
  (if c.parameters.isEmpty then [] else indent2 (renderParams (("parameters").toList) c.parameters)) ++
  (if c.returns.isEmpty then [] else indent2 (renderParams (("returns").toList) c.returns))

/-- Display for `Event`. -/
def renderEvent (e : Event) : List Char :=
  (if e.description.isEmpty then [] else renderDescription e.description) ++
  flagChars e.experimental (("experimental ").toList) ++
  flagChars e.deprecated (("deprecated ").toList) ++
  ("event ").toList ++ e.name ++ ['\n'] ++
  (if e.parameters.isEmpty then [] else indent2 (renderParams (("parameters").toList) e.parameters))

/-- Display for `Domain`: head line, depends-on lines, a blank line, then
each child declaration indented and followed by a blank line. -/
def renderDomain (d : Domain) : List Char :=
  (if d.description.isEmpty then [] else renderDescription d.description) ++
  flagChars d.experimental (("experimental ").toList) ++
  flagChars d.deprecated (("deprecated ").toList) ++
  ("domain ").toList ++ d.name ++ ['\n'] ++
  (d.dependencies.map fun dep => indent2 (("depends on ").toList ++ dep) ++ ['\n']).flatten ++
  ['\n'] ++
  (d.types.map fun t => indent2 (renderTypeDef t) ++ ['\n']).flatten ++
  (d.commands.map fun c => indent2 (renderCommand c) ++ ['\n']).flatten ++
  (d.events.map fun e => indent2 (renderEvent e) ++ ['\n']).flatten

/-- Display for `Version` (a `writeln!`, so it ends with a newline). -/
def renderVersion (v : Version) : List Char :=
  ("version\n  major ").toList ++ natChars v.major ++
  ("\n  minor ").toList ++ natChars v.minor ++ ['\n']

/-- Display for `Protocol`: description, version (with the extra newline of
the outer `writeln!`), then every domain. -/
def renderProtocol (p : Protocol) : List Char :=
  (if p.description.isEmpty then [] else renderDescription p.description) ++
  renderVersion p.version ++ ['\n'] ++
  (p.domains.map renderDomain).flatten

/-- Minimal JSON value tree for the field-emission claims. -/
inductive Json where
  | str (s : List Char)
  | jbool (b : Bool)
  | arr (elts : List Json)
  | obj (fields : List (List Char × Json))

/-- The `is_false` helper of src/ser.rs, used by the serde
`skip_serializing_if` attributes. -/
def is_false (v : Bool) : Bool := !v

/-- The `serialize_description` helper of src/ser.rs: the comment lines
joined with single spaces into one string. -/
def joinSpaces : List (List Char) → List Char
  | [] => []
  | [line] => line
  | line :: rest => line ++ [' '] ++ joinSpaces rest

/-- Type fragments of the JSON rendering, following src/ser.rs
(`impl Serialize for Ty`): scalars as a `type` entry, enums as
`type: string` plus the variant-name array, arrays recursively under
`items`, references as `$ref`. -/
def tyFields : PdlType → List (List Char × Json)
  | .integer => [((("type").toList), Json.str (("integer").toList))]
  | .number => [((("type").toList), Json.str (("number").toList))]
  | .boolean => [((("type").toList), Json.str (("boolean").toList))]
  | .string => [((("type").toList), Json.str (("string").toList))]
  | .object => [((("type").toList), Json.str (("object").toList))]
  | .any => [((("type").toList), Json.str (("any").toList))]
  | .binary => [((("type").toList), Json.str (("binary").toList))]
  | .enum vs =>
    [((("type").toList), Json.str (("string").toList)),
     ((("enum").toList), Json.arr (vs.map fun v => Json.str v.name))]
  | .arrayOf t =>
    [((("type").toList), Json.str (("array").toList)),
     ((("items").toList), Json.obj (tyFields t))]
  | .ref id => [((("$ref").toList), Json.str id)]

/-- Modelled from the spec: the serde derive attributes on `Param` live in
the crate root module, which is not among the given sources; per section 4.8
of the specification the boolean flags are emitted only when true (via the
`is_false` helper of src/ser.rs), the description only when nonempty (joined
with single spaces by `serialize_description` of src/ser.rs), the type
fields flattened into the same object. -/
def paramJsonFields (p : Param) : List (List Char × Json) :=
  (if p.description.isEmpty then []
   else [((("description").toList), Json.str (joinSpaces p.description))]) ++
  (if is_false p.experimental then []
   else [((("experimental").toList), Json.jbool p.experimental)]) ++
  (if is_false p.deprecated then []
   else [((("deprecated").toList), Json.jbool p.deprecated)]) ++
  (if is_false p.optional then []
   else [((("optional").toList), Json.jbool p.optional)]) ++
  tyFields p.ty ++
  [((("name").toList), Json.str p.name)]

/-- Modelled from the spec: JSON object fields of a `Command`, flags emitted
only when true, description only when nonempty, collections only when
nonempty, the redirect as a bare string. -/
def commandJsonFields (c : Command) : List (List Char × Json) :=
  [((("name").toList), Json.str c.name)] ++
  (if c.description.isEmpty then []
   else [((("description").toList), Json.str (joinSpaces c.description))]) ++
  (if is_false c.experimental then []
   else [((("experimental").toList), Json.jbool c.experimental)]) ++
  (if is_false c.deprecated then []
   else [((("deprecated").toList), Json.jbool c.deprecated)]) ++
  (match c.redirect with
   | some r => [((("redirect").toList), Json.str r.toDomain)]
   | none => []) ++
  (if c.parameters.isEmpty then []
   else [((("parameters").toList), Json.arr (c.parameters.map fun p => Json.obj (paramJsonFields p)))]) ++
  (if c.returns.isEmpty then []
   else [((("returns").toList), Json.arr (c.returns.map fun p => Json.obj (paramJsonFields p)))])

/-- Modelled from the spec: JSON object fields of an `Event`. -/
def eventJsonFields (e : Event) : List (List Char × Json) :=
  [((("name").toList), Json.str e.name)] ++
  (if e.description.isEmpty then []
   else [((("description").toList), Json.str (joinSpaces e.description))]) ++
  (if is_false e.experimental then []
   else [((("experimental").toList), Json.jbool e.experimental)]) ++
  (if is_false e.deprecated then []
   else [((("deprecated").toList), Json.jbool e.deprecated)]) ++
  (if e.parameters.isEmpty then []
   else [((("parameters").toList), Json.arr (e.parameters.map fun p => Json.obj (paramJsonFields p)))])

/-- Modelled from the spec: JSON object fields of a `TypeDef` (which has no
optional flag in the document model). -/
def typeDefJsonFields (t : TypeDef) : List (List Char × Json) :=
  [((("id").toList), Json.str t.id)] ++
  (if t.description.isEmpty then []
   else [((("description").toList), Json.str (joinSpaces t.description))]) ++
  (if is_false t.experimental then []
   else [((("experimental").toList), Json.jbool t.experimental)]) ++
  (if is_false t.deprecated then []
   else [((("deprecated").toList), Json.jbool t.deprecated)]) ++
  tyFields t.extendsTy

/-- Key list of a JSON object field list. -/
def fieldKeys (fields : List (List Char × Json)) : List (List Char) :=
  fields.map Prod.fst

/-- The remainder preview taken by examples/parser.rs after a successful
parse: the slice expression `&rest[..1000]`, which yields the first 1000
bytes when the remainder is at least that long and panics otherwise
(modelled as `none`). -/
def previewSlice (rest : List Char) : Option (List Char) :=
  if 1000 ≤ rest.length then some (rest.take 1000) else none

/-! Inversion lemmas for the parser primitives. -/

theorem ppure_eq_some {a : α} {input : List Char} {r : List Char × α} :
    ppure a input = some r ↔ r = (input, a) := by
  unfold ppure
  exact ⟨fun h => (Option.some_inj.mp h).symm, fun h => by rw [h]⟩

theorem pbind_eq_some {p : P α} {f : α → P β} {input : List Char} {r : List Char × β} :
    pbind p f input = some r ↔ ∃ rest a, p input = some (rest, a) ∧ f a rest = some r := by
  unfold pbind
  cases h : p input with
  | none => simp
  | some pr =>
    obtain ⟨rest, a⟩ := pr
    simp only [Option.some.injEq, Prod.mk.injEq]
    constructor
    · intro hf
      exact ⟨rest, a, ⟨rfl, rfl⟩, hf⟩
    · rintro ⟨r1, a1, ⟨rfl, rfl⟩, hf⟩
      exact hf

theorem pmap_eq_some {g : α → β} {p : P α} {input : List Char} {r : List Char × β} :
    pmap g p input = some r ↔ ∃ rest a, p input = some (rest, a) ∧ r = (rest, g a) := by
  simp [pmap, pbind_eq_some, ppure_eq_some]

theorem popt_eq_some {p : P α} {input : List Char} {r : List Char × Option α} :
    popt p input = some r ↔
      (p input = none ∧ r = (input, none)) ∨
      ∃ rest a, p input = some (rest, a) ∧ r = (rest, some a) := by
  unfold popt
  cases h : p input with
  | none => simp [eq_comm]
  | some pr =>
    obtain ⟨rest, a⟩ := pr
    simp only [Option.some.injEq, Prod.mk.injEq, reduceCtorEq, false_and, false_or]
    constructor
    · intro hf
      exact ⟨rest, a, ⟨rfl, rfl⟩, hf.symm⟩
    · rintro ⟨r1, a1, ⟨rfl, rfl⟩, hf⟩
      exact hf.symm

theorem pverify_eq_some {p : P α} {cond : α → Bool} {input rest : List Char} {a : α} :
    pverify p cond input = some (rest, a) ↔ p input = some (rest, a) ∧ cond a = true := by
  unfold pverify
  rw [pbind_eq_some]
  constructor
  · rintro ⟨rest1, a1, hp, hf⟩
    have hf2 : (if cond a1 = true then some (rest1, a1) else none) = some (rest, a) := hf
    by_cases hc : cond a1 = true
    · rw [if_pos hc] at hf2
      simp only [Option.some.injEq, Prod.mk.injEq] at hf2
      obtain ⟨rfl, rfl⟩ := hf2
      exact ⟨hp, hc⟩
    · rw [if_neg hc] at hf2
      exact absurd hf2 (by simp)
  · rintro ⟨hp, hc⟩
    refine ⟨rest, a, hp, ?_⟩
    show (if cond a = true then some (rest, a) else none) = some (rest, a)
    rw [if_pos hc]

theorem ptag_eq_some {t : List Char} {input : List Char} {r : List Char × List Char} :
    ptag t input = some r ↔ ∃ s, input = t ++ s ∧ r = (s, t) := by
  unfold ptag
  by_cases h : t.isPrefixOf input = true
  · obtain ⟨s, rfl⟩ := List.isPrefixOf_iff_prefix.mp h
    rw [if_pos h]
    constructor
    · intro hh
      obtain rfl := Option.some_inj.mp hh
      exact ⟨s, rfl, by rw [List.drop_left]⟩
    · rintro ⟨s2, hs2, rfl⟩
      obtain rfl : s = s2 := List.append_cancel_left hs2
      rw [List.drop_left]
  · rw [if_neg h]
    constructor
    · intro hh
      exact absurd hh (by simp)
    · rintro ⟨s, rfl, -⟩
      exact absurd (List.isPrefixOf_iff_prefix.mpr (List.prefix_append t s)) h

theorem pchar_eq_some {c : Char} {input rest : List Char} {v : Char} :
    pchar c input = some (rest, v) ↔ input = c :: rest ∧ v = c := by
  cases input with
  | nil => simp [pchar]
  | cons x tl =>
    by_cases hx : x = c
    · subst hx
      simp [pchar, eq_comm]
    · simp [pchar, hx]

theorem takeWhileC_eq_some {f : Char → Bool} {input : List Char} {r : List Char × List Char} :
    takeWhileC f input = some r ↔ r = (input.dropWhile f, input.takeWhile f) := by
  unfold takeWhileC
  exact ⟨fun h => (Option.some_inj.mp h).symm, fun h => by rw [h]⟩

theorem isA_eq_some {f : Char → Bool} {input : List Char} {r : List Char × List Char} :
    isA f input = some r ↔
      input.takeWhile f ≠ [] ∧ r = (input.dropWhile f, input.takeWhile f) := by
  unfold isA
  cases h : input.takeWhile f with
  | nil => simp
  | cons x xs =>
    constructor
    · intro hh
      exact ⟨by simp, (Option.some_inj.mp hh).symm⟩
    · rintro ⟨-, rfl⟩
      rfl

theorem takeUntilNl_eq_some {input : List Char} {r : List Char × List Char} :
    takeUntilNl input = some r ↔
      input.contains '\n' = true ∧
      r = (input.dropWhile (fun c => c ≠ '\n'), input.takeWhile (fun c => c ≠ '\n')) := by
  unfold takeUntilNl
  by_cases h : input.contains '\n' = true
  · rw [if_pos h]
    refine ⟨fun hh => ⟨h, (Option.some_inj.mp hh).symm⟩, ?_⟩
    rintro ⟨-, rfl⟩
    rfl
  · rw [if_neg h]
    constructor
    · intro hh
      exact absurd hh (by simp)
    · rintro ⟨hc, -⟩
      exact absurd hc h

theorem many1_eq_some {p : P α} {input : List Char} {r : List Char × List α} :
    many1 p input = some r ↔ many0 p input = some r ∧ r.2 ≠ [] := by
  unfold many1
  cases h : many0 p input with
  | none => simp
  | some pr =>
    obtain ⟨rest, xs⟩ := pr
    cases xs with
    | nil =>
      constructor
      · intro hh
        exact Option.noConfusion hh
      · rintro ⟨heq, hne⟩
        obtain rfl := Option.some_inj.mp heq
        exact absurd rfl hne
    | cons a tl =>
      constructor
      · intro hh
        obtain rfl := Option.some_inj.mp hh
        exact ⟨rfl, by simp⟩
      · rintro ⟨heq, -⟩
        obtain rfl := Option.some_inj.mp heq
        rfl

theorem manyAux_mem_of {p : P α} {Q : α → Prop}
    (hp : ∀ input rest a, p input = some (rest, a) → Q a) :
    ∀ fuel input rest xs, manyAux p fuel input = some (rest, xs) → ∀ x ∈ xs, Q x := by
  intro fuel
  induction fuel with
  | zero =>
    intro input rest xs h
    exact Option.noConfusion h
  | succ n ih =>
    intro input rest xs h x hx
    unfold manyAux at h
    cases hpi : p input with
    | none =>
      rw [hpi] at h
      have h2 : some (input, ([] : List α)) = some (rest, xs) := h
      obtain ⟨rfl, rfl⟩ : input = rest ∧ [] = xs := by simpa using h2
      simp at hx
    | some pr =>
      obtain ⟨rest1, a⟩ := pr
      rw [hpi] at h
      have h3 : (if rest1.length < input.length then
          (match manyAux p n rest1 with
           | none => none
           | some (rest2, xs2) => some (rest2, a :: xs2))
          else none) = some (rest, xs) := h
      by_cases hlen : rest1.length < input.length
      · rw [if_pos hlen] at h3
        cases hrec : manyAux p n rest1 with
        | none =>
          rw [hrec] at h3
          exact Option.noConfusion h3
        | some pr2 =>
          obtain ⟨rest2, xs2⟩ := pr2
          rw [hrec] at h3
          have h4 : some (rest2, a :: xs2) = some (rest, xs) := h3
          obtain ⟨rfl, rfl⟩ : rest2 = rest ∧ a :: xs2 = xs := by simpa using h4
          rcases List.mem_cons.mp hx with rfl | hmem
          · exact hp input rest1 x hpi
          · exact ih rest1 _ xs2 hrec x hmem
      · rw [if_neg hlen] at h3
        exact Option.noConfusion h3

theorem many0_mem_of {p : P α} {Q : α → Prop}
    (hp : ∀ input rest a, p input = some (rest, a) → Q a)
    {input rest : List Char} {xs : List α} (h : many0 p input = some (rest, xs)) :
    ∀ x ∈ xs, Q x :=
  manyAux_mem_of hp _ input rest xs h

theorem many1_mem_of {p : P α} {Q : α → Prop}
    (hp : ∀ input rest a, p input = some (rest, a) → Q a)
    {input rest : List Char} {xs : List α} (h : many1 p input = some (rest, xs)) :
    ∀ x ∈ xs, Q x :=
  many0_mem_of hp (many1_eq_some.mp h).1

/-! Structural facts about the scalar-type rule and the name tokens. -/

theorem base_not_arrayOf (tok : List Char) (u : PdlType) :
    PdlType.base tok ≠ PdlType.arrayOf u := by
  unfold PdlType.base
  split_ifs <;> simp

theorem base_enum_nil {tok : List Char} {vs : List Variant}
    (h : PdlType.base tok = PdlType.enum vs) : vs = [] := by
  unfold PdlType.base at h
  split_ifs at h
  all_goals simp_all

theorem new_enum_nil {tok : List Char} {b : Bool} {vs : List Variant}
    (h : PdlType.new tok b = PdlType.enum vs) : vs = [] := by
  unfold PdlType.new at h
  cases b with
  | false => exact base_enum_nil (by simpa using h)
  | true => simp at h

/-- A `Type` can hold at most one `ArrayOf` at the outside. -/
def noNestedArrayOf : PdlType → Bool
  | .arrayOf (.arrayOf _) => false
  | _ => true

theorem noNested_new (tok : List Char) (b : Bool) :
    noNestedArrayOf (PdlType.new tok b) = true := by
  cases b with
  | false =>
    have hnew : PdlType.new tok false = PdlType.base tok := rfl
    rw [hnew]
    cases hb : PdlType.base tok
    case arrayOf u => exact absurd hb (base_not_arrayOf tok u)
    all_goals rfl
  | true =>
    have hnew : PdlType.new tok true = PdlType.arrayOf (PdlType.base tok) := rfl
    rw [hnew]
    cases hb : PdlType.base tok
    case arrayOf u => exact absurd hb (base_not_arrayOf tok u)
    all_goals rfl

theorem optional_eq_some {name input rest : List Char} {b : Bool}
    (h : optional name input = some (rest, b)) :
    (b = false ∧ rest = input) ∨ (b = true ∧ input = name ++ ' ' :: rest) := by
  unfold optional at h
  rw [pmap_eq_some] at h
  obtain ⟨r1, v, hv, heq⟩ := h
  have heq1 : rest = r1 := congrArg Prod.fst heq
  have heq2 : b = v.isSome := congrArg Prod.snd heq
  rw [popt_eq_some] at hv
  rcases hv with ⟨-, hr⟩ | ⟨r2, a, hin, hr⟩
  · have hr1 : r1 = input := congrArg Prod.fst hr
    have hr2 : v = none := congrArg Prod.snd hr
    left
    constructor
    · rw [heq2, hr2]
      rfl
    · rw [heq1, hr1]
  · have hr1 : r1 = r2 := congrArg Prod.fst hr
    have hr2 : v = some a := congrArg Prod.snd hr
    right
    constructor
    · rw [heq2, hr2]
      rfl
    · rw [pbind_eq_some] at hin
      obtain ⟨r3, tagv, htag, hch⟩ := hin
      rw [ptag_eq_some] at htag
      obtain ⟨s, hs, hpr⟩ := htag
      have hs1 : r3 = s := congrArg Prod.fst hpr
      obtain ⟨hc1, -⟩ := pchar_eq_some.mp hch
      rw [hs, ← hs1, hc1, heq1, hr1]

/-- Full inversion of the `ty` rule: the consumed text is an optional
`array of ` head followed by the whitespace-free token whose keyword lookup
gives the value. -/
theorem ty_inv {input rest : List Char} {t : PdlType} (h : ty input = some (rest, t)) :
    ∃ (isArr : Bool) (tok pre : List Char),
      input = pre ++ (tok ++ rest) ∧ t = PdlType.new tok isArr ∧
      (∀ c ∈ tok, isRustWhitespace c = false) ∧
      (pre = [] ∨ pre = ("array of ").toList) := by
  unfold ty at h
  rw [pbind_eq_some] at h
  obtain ⟨r1, isArr, hopt, h⟩ := h
  rw [pbind_eq_some] at h
  obtain ⟨r2, tok, htw, hp⟩ := h
  rw [takeWhileC_eq_some] at htw
  rw [ppure_eq_some] at hp
  have ht1 : r2 = r1.dropWhile (fun c => !isRustWhitespace c) := congrArg Prod.fst htw
  have ht2 : tok = r1.takeWhile (fun c => !isRustWhitespace c) := congrArg Prod.snd htw
  have hp1 : rest = r2 := congrArg Prod.fst hp
  have hp2 : t = PdlType.new tok isArr := congrArg Prod.snd hp
  have hdecomp : r1 = tok ++ rest := by
    rw [ht2, hp1, ht1]
    exact (List.takeWhile_append_dropWhile _ r1).symm
  have htokchars : ∀ c ∈ tok, isRustWhitespace c = false := by
    intro c hc
    rw [ht2] at hc
    simpa using List.mem_takeWhile_imp hc
  rcases optional_eq_some hopt with ⟨hbf, hri⟩ | ⟨hbt, hri⟩
  · subst hbf
    refine ⟨false, tok, [], ?_, hp2, htokchars, Or.inl rfl⟩
    rw [List.nil_append, ← hri]
    exact hdecomp
  · subst hbt
    refine ⟨true, tok, ("array of ").toList, ?_, hp2, htokchars, Or.inr rfl⟩
    rw [hri, hdecomp]
    rfl

theorem variant_name {input rest : List Char} {v : Variant}
    (h : variant input = some (rest, v)) :
    v.name ≠ [] ∧ ∀ c ∈ v.name, isRustWhitespace c = false := by
  unfold variant at h
  rw [pbind_eq_some] at h
  obtain ⟨r1, d, -, h⟩ := h
  rw [pbind_eq_some] at h
  obtain ⟨r2, ind, -, h⟩ := h
  rw [pbind_eq_some] at h
  obtain ⟨r3, name, hname, h⟩ := h
  rw [pverify_eq_some] at hname
  obtain ⟨htw, hne⟩ := hname
  rw [takeWhileC_eq_some] at htw
  have ht2 : name = r2.takeWhile (fun c => !isRustWhitespace c) := congrArg Prod.snd htw
  rw [pbind_eq_some] at h
  obtain ⟨r4, e, -, hp⟩ := h
  rw [ppure_eq_some] at hp
  have hp2 : v = { description := d, name := name } := congrArg Prod.snd hp
  have hvname : v.name = name := by rw [hp2]
  rw [hvname]
  constructor
  · intro hnil
    rw [hnil] at hne
    simp at hne
  · intro c hc
    rw [ht2] at hc
    simpa using List.mem_takeWhile_imp hc

theorem paramHead_fields {input rest : List Char} {p : Param}
    (h : paramHead input = some (rest, p)) :
    (p.name ≠ [] ∧ ∀ c ∈ p.name, isRustWhitespace c = false) ∧
    ∀ vs, p.ty = PdlType.enum vs → vs = [] := by
  unfold paramHead at h
  rw [pbind_eq_some] at h
  obtain ⟨r1, d, -, h⟩ := h
  rw [pbind_eq_some] at h
  obtain ⟨r2, ind, -, h⟩ := h
  rw [pbind_eq_some] at h
  obtain ⟨r3, exp, -, h⟩ := h
  rw [pbind_eq_some] at h
  obtain ⟨r4, dep, -, h⟩ := h
  rw [pbind_eq_some] at h
  obtain ⟨r5, opt, -, h⟩ := h
  rw [pbind_eq_some] at h
  obtain ⟨r6, t, hty, h⟩ := h
  rw [pbind_eq_some] at h
  obtain ⟨r7, sp, -, h⟩ := h
  rw [pbind_eq_some] at h
  obtain ⟨r8, name, hname, h⟩ := h
  rw [pverify_eq_some] at hname
  obtain ⟨htw, hne⟩ := hname
  rw [takeWhileC_eq_some] at htw
  have ht2 : name = r7.takeWhile (fun c => !isRustWhitespace c) := congrArg Prod.snd htw
  rw [pbind_eq_some] at h
  obtain ⟨r9, e, -, hp⟩ := h
  rw [ppure_eq_some] at hp
  have hp2 : p = { description := d, experimental := exp, deprecated := dep,
                   optional := opt, ty := t, name := name } := congrArg Prod.snd hp
  have hpname : p.name = name := by rw [hp2]
  have hpty : p.ty = t := by rw [hp2]
  refine ⟨⟨?_, ?_⟩, ?_⟩
  · rw [hpname]
    intro hnil
    rw [hnil] at hne
    simp at hne
  · rw [hpname]
    intro c hc
    rw [ht2] at hc
    simpa using List.mem_takeWhile_imp hc
  · intro vs hvs
    rw [hpty] at hvs
    obtain ⟨isArr, tok, pre, -, hval, -, -⟩ := ty_inv hty
    exact new_enum_nil (hval ▸ hvs)

theorem param_fields {input rest : List Char} {p : Param}
    (h : param input = some (rest, p)) :
    (p.name ≠ [] ∧ ∀ c ∈ p.name, isRustWhitespace c = false) ∧
    ∀ vs, p.ty = PdlType.enum vs → vs ≠ [] := by
  unfold param at h
  split at h
  · exact Option.noConfusion h
  · rename_i r1 ph hph
    have hfields := paramHead_fields hph
    split at h
    · rename_i vs hty
      split at h
      · exact Option.noConfusion h
      · rename_i r2 vars hvar
        have hp1 : r2 = rest := congrArg Prod.fst (Option.some_inj.mp h)
        have hp2 : { ph with ty := PdlType.enum (vs ++ vars) } = p :=
          congrArg Prod.snd (Option.some_inj.mp h)
        have hvs : vs = [] := hfields.2 vs hty
        have hvars : vars ≠ [] := by
          have := (many1_eq_some.mp hvar).2
          simpa using this
        constructor
        · have hname : p.name = ph.name := by rw [← hp2]
          rw [hname]
          exact hfields.1
        · intro vs2 hvs2
          have hpty : p.ty = PdlType.enum (vs ++ vars) := by rw [← hp2]
          rw [hpty] at hvs2
          have : vs ++ vars = vs2 := PdlType.enum.inj hvs2
          rw [← this, hvs]
          simpa using hvars
    · rename_i hne
      have hp1 : r1 = rest := congrArg Prod.fst (Option.some_inj.mp h)
      have hp2 : ph = p := congrArg Prod.snd (Option.some_inj.mp h)
      subst hp2
      refine ⟨hfields.1, ?_⟩
      intro vs hvs
      exact absurd hvs (by exact fun hh => hne vs hh)

end Pdl

namespace Pdl

/-! Claim C3: the scalar-type keyword table. -/

/-- C3: the scalar-type rule is claimed to map `binary` to `Binary`, but
`Type::new` in src/parse.rs has no `binary` arm, so the token `binary`
resolves to `Ref("binary")` even though the `Type::Binary` constructor
exists and the Display implementation renders it as `binary`; hence the
keyword round-trip fails for `Binary`, while the other seven table entries
and the `array of` wrapping behave as claimed. -/
theorem C3_binary_keyword_missing :
    PdlType.new (("binary").toList) false = PdlType.ref (("binary").toList) ∧
    ty (("binary").toList) = some ([], PdlType.ref (("binary").toList)) ∧
    renderPdlType PdlType.binary = ("binary").toList ∧
    PdlType.new (renderPdlType PdlType.binary) false ≠ PdlType.binary ∧
    PdlType.new (("enum").toList) false = PdlType.enum [] ∧
    PdlType.new (("integer").toList) false = PdlType.integer ∧
    PdlType.new (("number").toList) false = PdlType.number ∧
    PdlType.new (("boolean").toList) false = PdlType.boolean ∧
    PdlType.new (("string").toList) false = PdlType.string ∧
    PdlType.new (("object").toList) false = PdlType.object ∧
    PdlType.new (("any").toList) false = PdlType.any ∧
    PdlType.new (("AXNodeId").toList) false = PdlType.ref (("AXNodeId").toList) ∧
    ty (("array of integer").toList) = some ([], PdlType.arrayOf PdlType.integer) := by
  decide

/-! Claim C4: ordering of child declarations inside a domain body. -/

/-- C4 counterexample: a `type` declaration that appears after a `command`
declaration IS consumed as part of the domain (the claimed fixed
TypeDef*-then-Command*-then-Event* sequencing would have left it in the
remainder), because src/parse.rs gathers the children with a single
`many0` over an `alt` of the three declaration kinds. -/
theorem C4_counterexample :
    domain (("domain D\n  command c\n\n  type T extends string\n").toList) =
      some ([],
        { description := [], experimental := false, deprecated := false,
          name := (("D").toList), dependencies := [],
          types := [{ description := [], experimental := false, deprecated := false,
                      id := (("T").toList), extendsTy := PdlType.string, item := none }],
          commands := [{ description := [], experimental := false, deprecated := false,
                         name := (("c").toList), redirect := none,
                         parameters := [], returns := [] }],
          events := [] }) := by
  decide

/-- C4 amended: after the `depends on` lines the domain body is consumed by
one repeated alternation over TypeDef/Command/Event in any interleaved
order, and the parsed items are then partitioned into the three lists
preserving their relative source order; in particular a type declaration
after a command declaration is still consumed into the same domain. -/
theorem C4_interleaved_items_partitioned :
    (∀ items : List DomainItem,
      partitionItems items =
        (items.filterMap (fun i => match i with | DomainItem.typeDef t => some t | _ => none),
         items.filterMap (fun i => match i with | DomainItem.command c => some c | _ => none),
         items.filterMap (fun i => match i with | DomainItem.event e => some e | _ => none))) ∧
    domain (("domain D\n  event e\n\n  command c\n\n  type T extends string\n").toList) =
      some ([],
        { description := [], experimental := false, deprecated := false,
          name := (("D").toList), dependencies := [],
          types := [{ description := [], experimental := false, deprecated := false,
                      id := (("T").toList), extendsTy := PdlType.string, item := none }],
          commands := [{ description := [], experimental := false, deprecated := false,
                         name := (("c").toList), redirect := none,
                         parameters := [], returns := [] }],
          events := [{ description := [], experimental := false, deprecated := false,
                       name := (("e").toList), parameters := [] }] }) := by
  refine ⟨fun items => ?_, by decide⟩
  induction items with
  | nil => rfl
  | cons i rest ih => cases i <;> simp [partitionItems, ih, List.filterMap_cons]

/-! Claim C5: positional modifier keywords. -/

/-- Head line of a parameter with an arbitrary combination of the three
modifier keywords in grammar order, used to state C5. -/
def modifierHead (e d o : Bool) : List Char :=
  (' ' :: ' ' :: []) ++
  flagChars e (("experimental ").toList) ++
  flagChars d (("deprecated ").toList) ++
  flagChars o (("optional ").toList) ++
  ("integer x\n").toList

/-- C5: with the keywords in the grammar order experimental, deprecated,
optional, every combination of present keywords parses and each keyword
sets exactly its own flag; heads with the modifiers reordered do not parse
as a Param at all. -/
theorem C5_positional_independent_flags :
    (∀ e d o : Bool,
      param (modifierHead e d o) =
        some ([], { description := [], experimental := e, deprecated := d,
                    optional := o, ty := PdlType.integer, name := (("x").toList) })) ∧
    param (("  optional experimental integer x\n").toList) = none ∧
    param (("  optional deprecated integer x\n").toList) = none ∧
    param (("  deprecated experimental integer x\n").toList) = none := by
  refine ⟨fun e d o => ?_, by decide, by decide, by decide⟩
  cases e <;> cases d <;> cases o <;> decide

/-! Claim C6: the `optional` modifier on a TypeDef head. -/

/-- C6 counterexample: the head line of a type definition with an
`optional ` modifier is rejected by the `type_def` rule of src/parse.rs
(whose head probes only `experimental` and `deprecated`), while the same
head without `optional` parses. -/
theorem C6_counterexample :
    type_def (("  optional type Foo extends string\n").toList) = none ∧
    type_def (("  type Foo extends string\n").toList) =
      some ([],
        { description := [], experimental := false, deprecated := false,
          id := (("Foo").toList), extendsTy := PdlType.string, item := none }) := by
  decide

/-- C6 amended: the TypeDef head accepts only the `experimental` and
`deprecated` modifiers (the parsed TypeDef carries no optional flag at
all); the `optional` modifier is accepted only in the Param head. -/
theorem C6_typedef_head_modifiers :
    type_def (("  experimental deprecated type Foo extends string\n").toList) =
      some ([],
        { description := [], experimental := true, deprecated := true,
          id := (("Foo").toList), extendsTy := PdlType.string, item := none }) ∧
    type_def (("  optional type Foo extends string\n").toList) = none ∧
    param (("  optional integer x\n").toList) =
      some ([], { description := [], experimental := false, deprecated := false,
                  optional := true, ty := PdlType.integer, name := (("x").toList) }) := by
  decide

/-! Computation lemmas used to replay the parser on a known input shape. -/

theorem pbind_comp {p : P α} {f : α → P β} {input r1 : List Char} {a : α}
    (hp : p input = some (r1, a)) : pbind p f input = f a r1 := by
  unfold pbind
  rw [hp]

theorem ptag_append (t s : List Char) : ptag t (t ++ s) = some (s, t) :=
  ptag_eq_some.mpr ⟨s, rfl, rfl⟩

theorem pchar_cons (c : Char) (s : List Char) : pchar c (c :: s) = some (s, c) :=
  pchar_eq_some.mpr ⟨rfl, rfl⟩

theorem eol_cons (s : List Char) : eol ('\n' :: s) = some (s, '\n') :=
  pchar_cons '\n' s

theorem takeWhile_append_not {f : Char → Bool} {a : List Char}
    (ha : ∀ c ∈ a, f c = true) {c : Char} (hc : f c = false) (b : List Char) :
    (a ++ c :: b).takeWhile f = a ∧ (a ++ c :: b).dropWhile f = c :: b := by
  induction a with
  | nil => simp [List.takeWhile_cons, List.dropWhile_cons, hc]
  | cons x xs ih =>
    have hx : f x = true := ha x (by simp)
    have ihh := ih fun c hc2 => ha c (by simp [hc2])
    simp [List.takeWhile_cons, List.dropWhile_cons, hx, ihh.1, ihh.2]

theorem takeWhileC_append {f : Char → Bool} {a : List Char}
    (ha : ∀ c ∈ a, f c = true) {c : Char} (hc : f c = false) (b : List Char) :
    takeWhileC f (a ++ c :: b) = some (c :: b, a) := by
  have h := takeWhile_append_not ha hc b
  unfold takeWhileC
  rw [h.1, h.2]

theorem isA_append {f : Char → Bool} {a : List Char} (hne : a ≠ [])
    (ha : ∀ c ∈ a, f c = true) {c : Char} (hc : f c = false) (b : List Char) :
    isA f (a ++ c :: b) = some (c :: b, a) := by
  have h := takeWhile_append_not ha hc b
  unfold isA
  rw [h.1, h.2]
  cases a with
  | nil => exact absurd rfl hne
  | cons x xs => rfl

theorem puint_eq_some {input rest : List Char} {n : Nat} :
    puint input = some (rest, n) ↔
      input.takeWhile isAsciiDigit ≠ [] ∧ rest = input.dropWhile isAsciiDigit ∧
      n = digitsVal (input.takeWhile isAsciiDigit) ∧ n < usizeSize := by
  unfold puint
  rw [pbind_eq_some]
  constructor
  · rintro ⟨r1, ds, htw, hif⟩
    rw [takeWhileC_eq_some] at htw
    have ht1 : r1 = input.dropWhile isAsciiDigit := congrArg Prod.fst htw
    have ht2 : ds = input.takeWhile isAsciiDigit := congrArg Prod.snd htw
    have hif2 : (if ds.isEmpty then none
        else if digitsVal ds < usizeSize then some (r1, digitsVal ds) else none) =
        some (rest, n) := hif
    by_cases he : ds.isEmpty
    · rw [if_pos he] at hif2
      exact absurd hif2 (by simp)
    · rw [if_neg he] at hif2
      by_cases hb : digitsVal ds < usizeSize
      · rw [if_pos hb] at hif2
        have hr : rest = r1 := (congrArg Prod.fst (Option.some_inj.mp hif2)).symm
        have hn : n = digitsVal ds := (congrArg Prod.snd (Option.some_inj.mp hif2)).symm
        refine ⟨?_, by rw [hr, ht1], by rw [hn, ht2], by rw [hn]; exact hb⟩
        rw [← ht2]
        intro hnil
        rw [hnil] at he
        exact he rfl
      · rw [if_neg hb] at hif2
        exact absurd hif2 (by simp)
  · rintro ⟨hne, hrest, hn, hb⟩
    refine ⟨input.dropWhile isAsciiDigit, input.takeWhile isAsciiDigit,
      takeWhileC_eq_some.mpr rfl, ?_⟩
    have he : (input.takeWhile isAsciiDigit).isEmpty = false := by
      cases hh : input.takeWhile isAsciiDigit with
      | nil => exact absurd hh hne
      | cons x xs => rfl
    show (if (input.takeWhile isAsciiDigit).isEmpty then none
        else if digitsVal (input.takeWhile isAsciiDigit) < usizeSize then
          some (input.dropWhile isAsciiDigit, digitsVal (input.takeWhile isAsciiDigit))
        else none) = some (rest, n)
    rw [he]
    simp only [Bool.false_eq_true, if_false]
    rw [if_pos (hn ▸ hb), hrest, hn]

theorem puint_append {d : List Char} (hne : d ≠ [])
    (hd : ∀ c ∈ d, isAsciiDigit c = true) (hb : digitsVal d < usizeSize)
    {c : Char} (hc : isAsciiDigit c = false) (b : List Char) :
    puint (d ++ c :: b) = some (c :: b, digitsVal d) := by
  unfold puint
  rw [pbind_comp (takeWhileC_append hd hc b)]
  have he : d.isEmpty = false := by
    cases hh : d with
    | nil => exact absurd hh hne
    | cons x xs => rfl
  show (if d.isEmpty then none
      else if digitsVal d < usizeSize then some (c :: b, digitsVal d) else none) =
    some (c :: b, digitsVal d)
  rw [he]
  simp only [Bool.false_eq_true, if_false]
  rw [if_pos hb]

/-! Claim C7: the version rule accepts exactly one literal shape. -/

/-- The literal three-line shape demanded by the specification for the
version block: `version`, an indented `major <digits>` line, an indented
`minor <digits>` line, each digit run a `usize`. -/
def versionShape (input rest : List Char) (v : Version) : Prop :=
  ∃ i1 d1 i2 d2,
    input = ("version\n").toList ++ i1 ++ ("major ").toList ++ d1 ++ ['\n'] ++
            i2 ++ ("minor ").toList ++ d2 ++ ['\n'] ++ rest ∧
    i1 ≠ [] ∧ (∀ c ∈ i1, isSpaceTab c = true) ∧
    d1 ≠ [] ∧ (∀ c ∈ d1, isAsciiDigit c = true) ∧ digitsVal d1 < usizeSize ∧
    i2 ≠ [] ∧ (∀ c ∈ i2, isSpaceTab c = true) ∧
    d2 ≠ [] ∧ (∀ c ∈ d2, isAsciiDigit c = true) ∧ digitsVal d2 < usizeSize ∧
    v = { major := digitsVal d1, minor := digitsVal d2 }

/-- C7: the version rule succeeds exactly on the literal three-line
sequence (so any deviation from it is a failure), and the concrete input
of the specification parses to major 1, minor 3 with empty remainder. -/
theorem C7_version_exact_sequence :
    version (("version\n  major 1\n  minor 3\n").toList) =
      some ([], { major := 1, minor := 3 }) ∧
    ∀ input rest v, version input = some (rest, v) ↔ versionShape input rest v := by
  refine ⟨by decide, fun input rest v => ⟨?_, ?_⟩⟩
  · intro h
    unfold version at h
    rw [pbind_eq_some] at h
    obtain ⟨s1, tg1, htag1, h⟩ := h
    rw [ptag_eq_some] at htag1
    obtain ⟨s2, hin, hpr1⟩ := htag1
    have hs1 : s1 = s2 := congrArg Prod.fst hpr1
    rw [pbind_eq_some] at h
    obtain ⟨r2, e1, heol1, h⟩ := h
    obtain ⟨hce1, -⟩ := pchar_eq_some.mp heol1
    rw [pbind_eq_some] at h
    obtain ⟨r3, i1, hind1, h⟩ := h
    unfold indent at hind1
    rw [isA_eq_some] at hind1
    obtain ⟨hne1, hpr2⟩ := hind1
    have hi1a : r3 = r2.dropWhile isSpaceTab := congrArg Prod.fst hpr2
    have hi1b : i1 = r2.takeWhile isSpaceTab := congrArg Prod.snd hpr2
    have hr2 : r2 = i1 ++ r3 := by
      rw [hi1a, hi1b]
      exact (List.takeWhile_append_dropWhile _ r2).symm
    rw [pbind_eq_some] at h
    obtain ⟨s4, tg2, htag2, h⟩ := h
    rw [ptag_eq_some] at htag2
    obtain ⟨s5, hr3, hpr3⟩ := htag2
    have hs4 : s4 = s5 := congrArg Prod.fst hpr3
    rw [pbind_eq_some] at h
    obtain ⟨r5, sp1, hsp1, h⟩ := h
    obtain ⟨hcs1, -⟩ := pchar_eq_some.mp hsp1
    rw [pbind_eq_some] at h
    obtain ⟨r6, major, hnum1, h⟩ := h
    rw [puint_eq_some] at hnum1
    obtain ⟨hd1ne, hr6, hmaj, hmajb⟩ := hnum1
    obtain ⟨d1, hd1eq⟩ : ∃ d, r5.takeWhile isAsciiDigit = d := ⟨_, rfl⟩
    rw [hd1eq] at hd1ne hmaj
    have hd1chars : ∀ c ∈ d1, isAsciiDigit c = true := by
      rw [← hd1eq]
      intro c hc
      exact List.mem_takeWhile_imp hc
    have hr5 : r5 = d1 ++ r6 := by
      rw [← hd1eq, hr6]
      exact (List.takeWhile_append_dropWhile _ r5).symm
    rw [pbind_eq_some] at h
    obtain ⟨r7, e2, heol2, h⟩ := h
    obtain ⟨hce2, -⟩ := pchar_eq_some.mp heol2
    rw [pbind_eq_some] at h
    obtain ⟨r8, i2, hind2, h⟩ := h
    unfold indent at hind2
    rw [isA_eq_some] at hind2
    obtain ⟨hne2, hpr4⟩ := hind2
    have hi2a : r8 = r7.dropWhile isSpaceTab := congrArg Prod.fst hpr4
    have hi2b : i2 = r7.takeWhile isSpaceTab := congrArg Prod.snd hpr4
    have hr7 : r7 = i2 ++ r8 := by
      rw [hi2a, hi2b]
      exact (List.takeWhile_append_dropWhile _ r7).symm
    rw [pbind_eq_some] at h
    obtain ⟨s9, tg3, htag3, h⟩ := h
    rw [ptag_eq_some] at htag3
    obtain ⟨s10, hr8, hpr5⟩ := htag3
    have hs9 : s9 = s10 := congrArg Prod.fst hpr5
    rw [pbind_eq_some] at h
    obtain ⟨r10, sp2, hsp2, h⟩ := h
    obtain ⟨hcs2, -⟩ := pchar_eq_some.mp hsp2
    rw [pbind_eq_some] at h
    obtain ⟨r11, minor, hnum2, h⟩ := h
    rw [puint_eq_some] at hnum2
    obtain ⟨hd2ne, hr11, hmin, hminb⟩ := hnum2
    obtain ⟨d2, hd2eq⟩ : ∃ d, r10.takeWhile isAsciiDigit = d := ⟨_, rfl⟩
    rw [hd2eq] at hd2ne hmin
    have hd2chars : ∀ c ∈ d2, isAsciiDigit c = true := by
      rw [← hd2eq]
      intro c hc
      exact List.mem_takeWhile_imp hc
    have hr10 : r10 = d2 ++ r11 := by
      rw [← hd2eq, hr11]
      exact (List.takeWhile_append_dropWhile _ r10).symm
    rw [pbind_eq_some] at h
    obtain ⟨r12, e3, heol3, h⟩ := h
    obtain ⟨hce3, -⟩ := pchar_eq_some.mp heol3
    rw [ppure_eq_some] at h
    have hrest : rest = r12 := congrArg Prod.fst h
    have hv : v = { major := major, minor := minor } := congrArg Prod.snd h
    refine ⟨i1, d1, i2, d2, ?_, ?_, ?_, hd1ne, hd1chars, hmaj ▸ hmajb,
      ?_, ?_, hd2ne, hd2chars, hmin ▸ hminb, ?_⟩
    · have ev : ("version\n").toList = ("version").toList ++ ['\n'] := by decide
      have em : ("major ").toList = ("major").toList ++ [' '] := by decide
      have emi : ("minor ").toList = ("minor").toList ++ [' '] := by decide
      rw [hin, ← hs1, hce1, hr2, hr3, ← hs4, hcs1, hr5, hce2, hr7, hr8, ← hs9,
        hcs2, hr10, hce3, hrest, ev, em, emi]
      simp [List.append_assoc]
    · rw [hi1b]
      exact hne1
    · intro c hc
      rw [hi1b] at hc
      exact List.mem_takeWhile_imp hc
    · rw [hi2b]
      exact hne2
    · intro c hc
      rw [hi2b] at hc
      exact List.mem_takeWhile_imp hc
    · rw [hv, hmaj, hmin]
  · rintro ⟨i1, d1, i2, d2, hin, hi1ne, hi1, hd1ne, hd1, hd1b, hi2ne, hi2, hd2ne,
      hd2, hd2b, hv⟩
    have hm : ("major").toList ++ (' ' :: (d1 ++ '\n' :: (i2 ++
        (("minor").toList ++ (' ' :: (d2 ++ '\n' :: rest)))))) =
        ("major ").toList ++ d1 ++ ['\n'] ++ i2 ++ ("minor ").toList ++ d2 ++ ['\n'] ++ rest := by
      have em : ("major ").toList = ("major").toList ++ [' '] := by decide
      have emi : ("minor ").toList = ("minor").toList ++ [' '] := by decide
      rw [em, emi]
      simp [List.append_assoc]
    have hin2 : input = ("version").toList ++ ('\n' :: (i1 ++
        (("major").toList ++ (' ' :: (d1 ++ '\n' :: (i2 ++
          (("minor").toList ++ (' ' :: (d2 ++ '\n' :: rest))))))))) := by
      rw [hin]
      have ev : ("version\n").toList = ("version").toList ++ ['\n'] := by decide
      rw [ev]
      simp [List.append_assoc]
    subst hv
    unfold version
    rw [hin2]
    rw [pbind_comp (ptag_append (("version").toList) _)]
    rw [pbind_comp (eol_cons _)]
    have hstep1 : indent (i1 ++ (("major").toList ++ (' ' :: (d1 ++ '\n' :: (i2 ++
        (("minor").toList ++ (' ' :: (d2 ++ '\n' :: rest)))))))) =
        some ((("major").toList ++ (' ' :: (d1 ++ '\n' :: (i2 ++
        (("minor").toList ++ (' ' :: (d2 ++ '\n' :: rest))))))), i1) :=
      isA_append hi1ne hi1 (by decide) _
    rw [pbind_comp hstep1]
    rw [pbind_comp (ptag_append (("major").toList) _)]
    rw [pbind_comp (pchar_cons ' ' _)]
    rw [pbind_comp (@puint_append d1 hd1ne hd1 hd1b '\n' (by decide) _)]
    rw [pbind_comp (eol_cons _)]
    have hstep2 : indent (i2 ++ (("minor").toList ++ (' ' :: (d2 ++ '\n' :: rest)))) =
        some ((("minor").toList ++ (' ' :: (d2 ++ '\n' :: rest))), i2) :=
      isA_append hi2ne hi2 (by decide) _
    rw [pbind_comp hstep2]
    rw [pbind_comp (ptag_append (("minor").toList) _)]
    rw [pbind_comp (pchar_cons ' ' _)]
    rw [pbind_comp (@puint_append d2 hd2ne hd2 hd2b '\n' (by decide) _)]
    rw [pbind_comp (eol_cons _)]
    rfl

/-- C7 witness: the shape characterization instantiated on a concrete
tab-indented version block, exercising the accepting direction. -/
theorem C7_witness :
    version (("version\n\tmajor 42\n  minor 0\n").toList) =
      some ([], { major := 42, minor := 0 }) :=
  (C7_version_exact_sequence.2 _ _ _).mpr
    ⟨['\t'], ("42").toList, [' ', ' '], ['0'], by decide, by decide, by decide,
     by decide, by decide, by decide, by decide, by decide, by decide, by decide,
     by decide, by decide⟩

/-! Claim C1: the round-trip property of parse and the text renderer. -/

/-- Source text whose parse result fails to round-trip: a command whose
parameters end with an enum-typed parameter, separated from the `returns`
block by a blank line. -/
def c1src : List Char :=
  ("version\n  major 1\n  minor 3\ndomain D\n  command foo\n    parameters\n      enum p\n        A\n\n    returns\n      integer x\n").toList

/-- The Document produced by parsing `c1src`. -/
def c1doc : Protocol :=
  { description := [], version := { major := 1, minor := 3 },
    domains := [{ description := [], experimental := false, deprecated := false,
                  name := (("D").toList), dependencies := [], types := [],
                  commands := [{ description := [], experimental := false, deprecated := false,
                                 name := (("foo").toList), redirect := none,
                                 parameters := [{ description := [], experimental := false,
                                                  deprecated := false, optional := false,
                                                  ty := PdlType.enum
                                                    [{ description := [], name := (("A").toList) }],
                                                  name := (("p").toList) }],
                                 returns := [{ description := [], experimental := false,
                                               deprecated := false, optional := false,
                                               ty := PdlType.integer, name := (("x").toList) }] }],
                  events := [] }] }

/-- The structurally different Document obtained by re-parsing the
canonical rendering of `c1doc`: the `returns` header line has been
absorbed as an extra variant of the enum parameter and the return value
re-parsed as a second parameter. -/
def c1misDoc : Protocol :=
  { description := [],
    version := { major := 1, minor := 3 },
    domains := [{ description := [],
                  experimental := false,
                  deprecated := false,
                  name := (("D").toList),
                  dependencies := [],
                  types := [],
                  commands := [{ description := [],
                                 experimental := false,
                                 deprecated := false,
                                 name := (("foo").toList),
                                 redirect := none,
                                 parameters := [{ description := [],
                                                  experimental := false,
                                                  deprecated := false,
                                                  optional := false,
                                                  ty := PdlType.enum
                                                          [{ description := [], name := (("A").toList) },
                                                           { description := [],
                                                             name := (("returns").toList) }],
                                                  name := (("p").toList) },
                                                { description := [],
                                                  experimental := false,
                                                  deprecated := false,
                                                  optional := false,
                                                  ty := PdlType.integer,
                                                  name := (("x").toList) }],
                                 returns := [] }],
                  events := [] }] }

/-- Source text of a representative document exercising descriptions,
dependencies, enum and properties type definitions, enum/array/optional
parameters, commands with parameters and returns, redirects and events. -/
def c1RoundSrc : List Char :=
  ("# Copyright note\nversion\n  major 1\n  minor 3\n\nexperimental domain Accessibility\n  depends on DOM\n\n  # Unique accessibility node identifier.\n  type AXNodeId extends string\n\n  # Enum of possible property types.\n  type AXValueType extends string\n    enum\n      boolean\n      tristate\n\n  type AXValueSource extends object\n    properties\n      AXValueSourceType type\n      optional AXValue value\n      optional array of AXRelatedNode relatedNodes\n      enum kind\n        CSSTransition\n        WebAnimation\n\n  # Returns the DER-encoded certificate.\n  experimental command getCertificate\n    parameters\n      # Origin to get certificate for.\n      string origin\n      enum mode\n        strict\n      boolean flag\n    returns\n      array of string tableNames\n\n  command hideHighlight\n    # Use another domain instead\n    redirect Overlay\n\n  deprecated event virtualTimeAdvanced\n    parameters\n      number virtualTimeElapsed\n").toList

/-- The Document produced by parsing `c1RoundSrc`; this one does
round-trip. -/
def c1RoundDoc : Protocol :=
  { description := [(("Copyright note").toList)],
    version := { major := 1, minor := 3 },
    domains := [{ description := [],
                  experimental := true,
                  deprecated := false,
                  name := (("Accessibility").toList),
                  dependencies := [(("DOM").toList)],
                  types := [{ description := [(("Unique accessibility node identifier.").toList)],
                              experimental := false,
                              deprecated := false,
                              id := (("AXNodeId").toList),
                              extendsTy := PdlType.string,
                              item := none },
                            { description := [(("Enum of possible property types.").toList)],
                              experimental := false,
                              deprecated := false,
                              id := (("AXValueType").toList),
                              extendsTy := PdlType.string,
                              item := some (Pdl.Item.enum
                                        [{ description := [], name := (("boolean").toList) },
                                         { description := [], name := (("tristate").toList) }]) },
                            { description := [],
                              experimental := false,
                              deprecated := false,
                              id := (("AXValueSource").toList),
                              extendsTy := PdlType.object,
                              item := some (Pdl.Item.properties
                                        [{ description := [],
                                           experimental := false,
                                           deprecated := false,
                                           optional := false,
                                           ty := PdlType.ref
                                                   (("AXValueSourceType").toList),
                                           name := (("type").toList) },
                                         { description := [],
                                           experimental := false,
                                           deprecated := false,
                                           optional := true,
                                           ty := PdlType.ref (("AXValue").toList),
                                           name := (("value").toList) },
                                         { description := [],
                                           experimental := false,
                                           deprecated := false,
                                           optional := true,
                                           ty := PdlType.arrayOf
                                                   (PdlType.ref
                                                     (("AXRelatedNode").toList)),
                                           name := (("relatedNodes").toList) },
                                         { description := [],
                                           experimental := false,
                                           deprecated := false,
                                           optional := false,
                                           ty := PdlType.enum
                                                   [{ description := [],
                                                      name := (("CSSTransition").toList) },
                                                    { description := [],
                                                      name := (("WebAnimation").toList) }],
                                           name := (("kind").toList) }]) }],
                  commands := [{ description := [(("Returns the DER-encoded certificate.").toList)],
                                 experimental := true,
                                 deprecated := false,
                                 name := (("getCertificate").toList),
                                 redirect := none,
                                 parameters := [{ description := [(("Origin to get certificate for.").toList)],
                                                  experimental := false,
                                                  deprecated := false,
                                                  optional := false,
                                                  ty := PdlType.string,
                                                  name := (("origin").toList) },
                                                { description := [],
                                                  experimental := false,
                                                  deprecated := false,
                                                  optional := false,
                                                  ty := PdlType.enum
                                                          [{ description := [], name := (("strict").toList) }],
                                                  name := (("mode").toList) },
                                                { description := [],
                                                  experimental := false,
                                                  deprecated := false,
                                                  optional := false,
                                                  ty := PdlType.boolean,
                                                  name := (("flag").toList) }],
                                 returns := [{ description := [],
                                               experimental := false,
                                               deprecated := false,
                                               optional := false,
                                               ty := PdlType.arrayOf (PdlType.string),
                                               name := (("tableNames").toList) }] },
                               { description := [],
                                 experimental := false,
                                 deprecated := false,
                                 name := (("hideHighlight").toList),
                                 redirect := some
                                   { description := [(("Use another domain instead").toList)],
                                     toDomain := (("Overlay").toList) },
                                 parameters := [],
                                 returns := [] }],
                  events := [{ description := [],
                               experimental := false,
                               deprecated := true,
                               name := (("virtualTimeAdvanced").toList),
                               parameters := [{ description := [],
                                                experimental := false,
                                                deprecated := false,
                                                optional := false,
                                                ty := PdlType.number,
                                                name := (("virtualTimeElapsed").toList) }] }] }] }

set_option maxRecDepth 1000000 in
/-- C1 counterexample: `c1doc` is produced by a successful parse (with
empty remainder), yet parsing its canonical rendering, although it
succeeds, yields a structurally different Document — the claimed
round-trip fails on the code. -/
theorem C1_counterexample :
    parse c1src = some ([], c1doc) ∧
    parse (renderProtocol c1doc) = some ([], c1misDoc) ∧
    c1misDoc ≠ c1doc := by
  refine ⟨by decide, by decide, by decide⟩

set_option maxRecDepth 1000000 in
/-- C1 amended: the round-trip holds for representative parse-produced
Documents such as `c1RoundDoc` (re-parsing the rendering yields the same
Document, ignoring the remainder), but not universally; moreover the
scalar-type rule — the sole producer of Type values in the grammar —
never yields an `ArrayOf` nested more than one level deep, so no Document
containing such a type is ever produced by parse. -/
theorem C1_round_trip_amended :
    (parse c1RoundSrc = some ([], c1RoundDoc) ∧
     parse (renderProtocol c1RoundDoc) = some (['\n'], c1RoundDoc)) ∧
    ∀ input rest t, ty input = some (rest, t) → noNestedArrayOf t = true := by
  refine ⟨⟨by decide, by decide⟩, ?_⟩
  intro input rest t h
  obtain ⟨isArr, tok, pre, -, hval, -, -⟩ := ty_inv h
  rw [hval]
  exact noNested_new tok isArr

/-- C1 witness: the no-nested-ArrayOf consequence instantiated on the
scalar-type rule run on `array of integer`. -/
theorem C1_witness :
    noNestedArrayOf (PdlType.arrayOf PdlType.integer) = true :=
  C1_round_trip_amended.2 (("array of integer").toList) []
    (PdlType.arrayOf PdlType.integer) (by decide)

/-! Claim C2: enum variant attachment in the param rule. -/

/-- C2: when the param rule resolves the type token to the empty `Enum`,
it parses one-or-more following indented variant lines and appends them
into that list (hence every enum-typed Param carries a nonempty variant
list); the concrete input of the specification yields exactly the three
variants and the name `type`; and the scalar-type rule itself never
consumes a newline, so it can never consume a variant line. -/
theorem C2_enum_variant_attachment :
    param (("  enum type\n    CSSTransition\n    CSSAnimation\n    WebAnimation\n").toList) =
      some ([],
        { description := [], experimental := false, deprecated := false, optional := false,
          ty := PdlType.enum
            [{ description := [], name := (("CSSTransition").toList) },
             { description := [], name := (("CSSAnimation").toList) },
             { description := [], name := (("WebAnimation").toList) }],
          name := (("type").toList) }) ∧
    (∀ input rest t, ty input = some (rest, t) →
      ∃ pre, input = pre ++ rest ∧ ∀ c ∈ pre, c ≠ '\n') ∧
    (∀ input rest p, param input = some (rest, p) →
      ∀ vs, p.ty = PdlType.enum vs → vs ≠ []) := by
  refine ⟨by decide, ?_, ?_⟩
  · intro input rest t h
    obtain ⟨isArr, tok, pre, hdec, -, htok, hpre⟩ := ty_inv h
    refine ⟨pre ++ tok, by rw [hdec, List.append_assoc], ?_⟩
    intro c hc
    rcases List.mem_append.mp hc with hc | hc
    · rcases hpre with rfl | rfl
      · simp at hc
      · intro hcn
        subst hcn
        revert hc
        decide
    · intro hcn
      subst hcn
      exact absurd (htok '\n' hc) (by decide)
  · intro input rest p h
    exact (param_fields h).2

/-- C2 witness: the nonempty-variants consequence instantiated on the
concrete enum-typed parameter of the claim. -/
theorem C2_witness :
    ([{ description := [], name := (("CSSTransition").toList) },
      { description := [], name := (("CSSAnimation").toList) },
      { description := [], name := (("WebAnimation").toList) }] : List Variant) ≠ [] :=
  C2_enum_variant_attachment.2.2
    (("  enum type\n    CSSTransition\n    CSSAnimation\n    WebAnimation\n").toList) []
    { description := [], experimental := false, deprecated := false, optional := false,
      ty := PdlType.enum
        [{ description := [], name := (("CSSTransition").toList) },
         { description := [], name := (("CSSAnimation").toList) },
         { description := [], name := (("WebAnimation").toList) }],
      name := (("type").toList) } (by decide) _ rfl

/-! Claim C10: name-token invariants of the parsed entities. -/

/-- C10: every Variant and every Param produced by a successful run of the
variant/param rules has a nonempty name containing no whitespace (the name
token is a verified-nonempty run of non-whitespace characters), whereas
domain, command and event names are taken as everything up to the end of
the line: they may be empty or contain spaces. -/
theorem C10_parsed_name_tokens :
    (∀ input rest v, variant input = some (rest, v) →
      v.name ≠ [] ∧ ∀ c ∈ v.name, isRustWhitespace c = false) ∧
    (∀ input rest p, param input = some (rest, p) →
      p.name ≠ [] ∧ ∀ c ∈ p.name, isRustWhitespace c = false) ∧
    domain (("domain \n").toList) =
      some ([], { description := [], experimental := false, deprecated := false,
                  name := [], dependencies := [], types := [], commands := [], events := [] }) ∧
    domain (("domain A B\n").toList) =
      some ([], { description := [], experimental := false, deprecated := false,
                  name := (("A B").toList), dependencies := [], types := [],
                  commands := [], events := [] }) ∧
    command (("  command \n").toList) =
      some ([], { description := [], experimental := false, deprecated := false,
                  name := [], redirect := none, parameters := [], returns := [] }) ∧
    event (("  event two words\n").toList) =
      some ([], { description := [], experimental := false, deprecated := false,
                  name := (("two words").toList), parameters := [] }) := by
  exact ⟨fun input rest v h => variant_name h,
         fun input rest p h => (param_fields h).1,
         by decide, by decide, by decide, by decide⟩

/-- C10 witness: the name invariant instantiated on a concrete parsed
parameter. -/
theorem C10_witness :
    (("x").toList) ≠ ([] : List Char) :=
  (C10_parsed_name_tokens.2.1 (("  integer x\n").toList) []
    { description := [], experimental := false, deprecated := false, optional := false,
      ty := PdlType.integer, name := (("x").toList) } (by decide)).1

/-! Claim C8: sparse JSON field emission. -/

theorem tyFields_keys (t : PdlType) :
    ∀ k ∈ fieldKeys (tyFields t),
      k = ("type").toList ∨ k = ("enum").toList ∨
      k = ("items").toList ∨ k = ("$ref").toList := by
  intro k hk
  cases t
  all_goals simp [tyFields, fieldKeys] at hk
  all_goals tauto

/-- Flag and description keys never appear among the flattened type
fields. -/
theorem tyFields_no_flag_keys (t : PdlType) (k : List Char)
    (hk : k ∈ fieldKeys (tyFields t)) :
    k ≠ ("experimental").toList ∧ k ≠ ("deprecated").toList ∧
    k ≠ ("optional").toList ∧ k ≠ ("description").toList := by
  rcases tyFields_keys t k hk with rfl | rfl | rfl | rfl
  all_goals exact ⟨by decide, by decide, by decide, by decide⟩

/-- C8: a Param, Command, Event or TypeDef whose boolean flags are all
false and whose description is empty yields a JSON object with none of
the keys `experimental`, `deprecated`, `optional`, `description` (the
description, when present, would be the comment lines joined with single
spaces). -/
theorem C8_sparse_json_objects :
    (∀ p : Param, p.description = [] → p.experimental = false →
      p.deprecated = false → p.optional = false →
      ∀ k ∈ fieldKeys (paramJsonFields p),
        k ≠ ("experimental").toList ∧ k ≠ ("deprecated").toList ∧
        k ≠ ("optional").toList ∧ k ≠ ("description").toList) ∧
    (∀ c : Command, c.description = [] → c.experimental = false → c.deprecated = false →
      ∀ k ∈ fieldKeys (commandJsonFields c),
        k ≠ ("experimental").toList ∧ k ≠ ("deprecated").toList ∧
        k ≠ ("optional").toList ∧ k ≠ ("description").toList) ∧
    (∀ e : Event, e.description = [] → e.experimental = false → e.deprecated = false →
      ∀ k ∈ fieldKeys (eventJsonFields e),
        k ≠ ("experimental").toList ∧ k ≠ ("deprecated").toList ∧
        k ≠ ("optional").toList ∧ k ≠ ("description").toList) ∧
    (∀ t : TypeDef, t.description = [] → t.experimental = false → t.deprecated = false →
      ∀ k ∈ fieldKeys (typeDefJsonFields t),
        k ≠ ("experimental").toList ∧ k ≠ ("deprecated").toList ∧
        k ≠ ("optional").toList ∧ k ≠ ("description").toList) := by
  refine ⟨?_, ?_, ?_, ?_⟩
  · intro p h1 h2 h3 h4 k hk
    simp only [paramJsonFields, h1, h2, h3, h4, is_false, Bool.not_false, if_pos,
      List.isEmpty_nil, List.nil_append, fieldKeys, List.map_append, List.mem_append] at hk
    rcases hk with hk | hk
    · exact tyFields_no_flag_keys p.ty k hk
    · simp at hk
      subst hk
      exact ⟨by decide, by decide, by decide, by decide⟩
  · intro c h1 h2 h3 k hk
    simp only [commandJsonFields, h1, h2, h3, is_false, Bool.not_false, if_pos,
      List.isEmpty_nil, List.append_nil, fieldKeys, List.map_append, List.mem_append] at hk
    rcases hk with ((hk | hk) | hk) | hk
    · simp at hk
      subst hk
      exact ⟨by decide, by decide, by decide, by decide⟩
    · cases hr : c.redirect
      all_goals rw [hr] at hk
      all_goals simp at hk
      subst hk
      exact ⟨by decide, by decide, by decide, by decide⟩
    · by_cases hpe : c.parameters.isEmpty
      · rw [if_pos hpe] at hk
        simp at hk
      · rw [if_neg hpe] at hk
        simp at hk
        subst hk
        exact ⟨by decide, by decide, by decide, by decide⟩
    · by_cases hre : c.returns.isEmpty
      · rw [if_pos hre] at hk
        simp at hk
      · rw [if_neg hre] at hk
        simp at hk
        subst hk
        exact ⟨by decide, by decide, by decide, by decide⟩
  · intro e h1 h2 h3 k hk
    simp only [eventJsonFields, h1, h2, h3, is_false, Bool.not_false, if_pos,
      List.isEmpty_nil, List.append_nil, fieldKeys, List.map_append, List.mem_append] at hk
    rcases hk with hk | hk
    · simp at hk
      subst hk
      exact ⟨by decide, by decide, by decide, by decide⟩
    · by_cases hpe : e.parameters.isEmpty
      · rw [if_pos hpe] at hk
        simp at hk
      · rw [if_neg hpe] at hk
        simp at hk
        subst hk
        exact ⟨by decide, by decide, by decide, by decide⟩
  · intro t h1 h2 h3 k hk
    simp only [typeDefJsonFields, h1, h2, h3, is_false, Bool.not_false, if_pos,
      List.isEmpty_nil, List.nil_append, fieldKeys, List.map_append, List.mem_append] at hk
    rcases hk with hk | hk
    · simp at hk
      subst hk
      exact ⟨by decide, by decide, by decide, by decide⟩
    · exact tyFields_no_flag_keys t.extendsTy k hk

/-- C8 witness: the sparseness property instantiated on a concrete
all-default parameter and its `name` key. -/
theorem C8_witness :
    ("name").toList ≠ ("experimental").toList ∧
    ("name").toList ≠ ("deprecated").toList ∧
    ("name").toList ≠ ("optional").toList ∧
    ("name").toList ≠ ("description").toList :=
  C8_sparse_json_objects.1
    { description := [], experimental := false, deprecated := false, optional := false,
      ty := PdlType.integer, name := (("x").toList) } rfl rfl rfl rfl
    (("name").toList) (by decide)

/-! Claim C9: trailing remainder handling and the caller preview. -/

/-- C9: a successful parse that leaves a non-empty unconsumed suffix is not
an error: the trailing line comes back as the remainder; but the reference
caller in examples/parser.rs previews the remainder with the slice
`&rest[..1000]`, which panics (modelled as `none`) whenever the remainder
is shorter than 1000 bytes, as it is here, instead of warning with an
at-most-1000-character preview. -/
theorem C9_short_remainder_preview_panics :
    parse (("version\n  major 1\n  minor 3\ndomain D\nunknown line\n").toList) =
      some ((("unknown line\n").toList),
        { description := [], version := { major := 1, minor := 3 },
          domains := [{ description := [], experimental := false, deprecated := false,
                        name := (("D").toList), dependencies := [], types := [],
                        commands := [], events := [] }] }) ∧
    (("unknown line\n").toList) ≠ [] ∧
    (("unknown line\n").toList).length < 1000 ∧
    previewSlice (("unknown line\n").toList) = none := by
  decide

end Pdl
